import Mathlib

/-!
Shallow embedding of the mobx-failable library (three-state `Failable` and
six-state `Loadable` reactive state holders) and proofs about the claims of
its specification.

Modelling conventions:
* TypeScript runtime values that may appear in a holder's `data` field
  (`T | Error | undefined`) are modelled over a single payload type `α`,
  with `Option α` for the field itself (`none` = `undefined`).  TypeScript
  `as` casts are identities at runtime, so a callback declared on `T`
  receives the raw field value `Option α`.
* A TypeScript function that may `throw` is modelled as returning
  `Except α β`: `.error e` is a throw of the JS value `e`.
* Promises are modelled by their eventual outcome (`Outcome`), and the
  asynchronous part of `accept` by an explicit settlement continuation.
-/

namespace MobxFailable

/-- `Future.State` from `src/future.ts`: the three states of a `Failable`. -/
inductive FutureState
  | pending
  | success
  | failure
  deriving DecidableEq, Repr

/-- The three-state holder `Failable` from `src/failable/index.ts`: an
observable `state` plus a `data` field of type `T | Error | undefined`
(`none` = `undefined`). -/
structure Failable (α : Type) where
  state : FutureState
  data : Option α
  deriving DecidableEq, Repr

/-- The constructor state of a `Failable`: `data = undefined`,
`state = pending`. -/
def Failable.init {α : Type} : Failable α :=
  { state := FutureState.pending, data := none }

/-- `Failable.success` from `src/failable/index.ts`: sets `state` to
`success` and `data` to the given value (the base-class lifecycle hook
`didBecomeSuccess` is a no-op). -/
def Failable.success {α : Type} (_f : Failable α) (data : α) : Failable α :=
  { state := FutureState.success, data := some data }

/-- `Failable.failure` from `src/failable/index.ts`: sets `state` to
`failure` and `data` to the given error. -/
def Failable.failure {α : Type} (_f : Failable α) (error : α) : Failable α :=
  { state := FutureState.failure, data := some error }

/-- `Failable.pending` from `src/failable/index.ts`: sets `state` to
`pending` and `data` to `undefined`. -/
def Failable.pending {α : Type} (_f : Failable α) : Failable α :=
  { state := FutureState.pending, data := none }

/-- `Failable.isSuccess`: `this.state === State.success`. -/
def Failable.isSuccess {α : Type} (f : Failable α) : Bool :=
  decide (f.state = FutureState.success)

/-- `Failable.isFailure`: `this.state === State.failure`. -/
def Failable.isFailure {α : Type} (f : Failable α) : Bool :=
  decide (f.state = FutureState.failure)

/-- `Failable.isPending`: `this.state === State.pending`. -/
def Failable.isPending {α : Type} (f : Failable α) : Bool :=
  decide (f.state = FutureState.pending)

/-- `Future.MatchOptions` from `src/future.ts`, with a single result type
(the TypeScript union `A | B | C` is instantiated at the use site).  The
`success`/`failure` callbacks receive the raw `data` field (the `as T` /
`as Error` casts are identities at runtime). -/
structure FMatchOptions (α β : Type) where
  success : Option α → β
  failure : Option α → β
  pending : Unit → β

/-- `match` from `src/failable/match.ts`: dispatch on the state, passing
the raw `data` field to the selected callback. -/
def fmatch {α β : Type} (state : FutureState) (data : Option α)
    (options : FMatchOptions α β) : β :=
  match state with
  | FutureState.success => options.success data
  | FutureState.failure => options.failure data
  | FutureState.pending => options.pending ()

/-- `Failable.match`: delegates to `fmatch` on the holder's own fields. -/
def Failable.matchM {α β : Type} (f : Failable α)
    (options : FMatchOptions α β) : β :=
  fmatch f.state f.data options

/-- Modelled from the spec: `Lazy` (`src/lazy.ts` is absent from the
sources; only its tests remain).  A lazy value is either a concrete value
or a zero-argument producer of one. -/
inductive Lazy (α : Type)
  | value (v : α)
  | thunk (f : Unit → α)

/-- Modelled from the spec: `Lazy.force` invokes the producer if the lazy
value is callable, otherwise returns the value unchanged. -/
def Lazy.force {α : Type} : Lazy α → α
  | Lazy.value v => v
  | Lazy.thunk f => f ()

/-- `successOr` from the shared extensions (`src/extensions.ts`): built on
`match`; returns the raw success payload, or the forced default.  The
TypeScript return type is the union `T | U`, modelled as a `Sum`. -/
def successOr {α β : Type} (f : Failable α) (defaultValue : Lazy β) :
    Sum (Option α) β :=
  Failable.matchM f
    { success := fun v => Sum.inl v
      failure := fun _ => Sum.inr (Lazy.force defaultValue)
      pending := fun _ => Sum.inr (Lazy.force defaultValue) }

/-- `failureOr` from the shared extensions (`src/extensions.ts`). -/
def failureOr {α β : Type} (f : Failable α) (defaultValue : Lazy β) :
    Sum (Option α) β :=
  Failable.matchM f
    { success := fun _ => Sum.inr (Lazy.force defaultValue)
      failure := fun e => Sum.inl e
      pending := fun _ => Sum.inr (Lazy.force defaultValue) }

/-- A transition action on a `Failable`: one call to `success`, `failure`
or `pending`. -/
inductive FAct (α : Type)
  | success (v : α)
  | failure (e : α)
  | pending
  deriving DecidableEq, Repr

/-- Execute one transition action on a holder. -/
def FAct.apply {α : Type} (h : Failable α) : FAct α → Failable α
  | FAct.success v => Failable.success h v
  | FAct.failure e => Failable.failure h e
  | FAct.pending => Failable.pending h

/-- The holder a single action produces (each action overwrites both
`state` and `data`, independent of the previous holder). -/
def FAct.result {α : Type} : FAct α → Failable α
  | FAct.success v => { state := FutureState.success, data := some v }
  | FAct.failure e => { state := FutureState.failure, data := some e }
  | FAct.pending => { state := FutureState.pending, data := none }

/-- Execute a sequence of transition actions from a starting holder. -/
def runActs {α : Type} (h : Failable α) (as : List (FAct α)) : Failable α :=
  as.foldl FAct.apply h

theorem FAct.apply_eq_result {α : Type} (h : Failable α) (a : FAct α) :
    FAct.apply h a = a.result := by
  cases a <;> rfl

theorem runActs_concat {α : Type} (h : Failable α) (as : List (FAct α))
    (a : FAct α) : runActs h (as ++ [a]) = a.result := by
  unfold runActs
  rw [List.foldl_append]
  simp [FAct.apply_eq_result]

/-- C6: for every sequence of transition actions on a `Failable` (created
pending with no payload), the payload kind is fully determined by the
state: absent while pending, the value of the last `success` action while
success, the error of the last `failure` action while failure — no state
retains a stale payload, because every action replaces state and payload
together (so the final holder is determined by the last action alone). -/
theorem failable_payload_determined_by_state {α : Type}
    (as : List (FAct α)) :
    ((runActs Failable.init as).state = FutureState.pending →
      (runActs Failable.init as).data = none)
    ∧ ((runActs Failable.init as).state = FutureState.success →
      ∃ v, (runActs Failable.init as).data = some v
        ∧ as.getLast? = some (FAct.success v))
    ∧ ((runActs Failable.init as).state = FutureState.failure →
      ∃ e, (runActs Failable.init as).data = some e
        ∧ as.getLast? = some (FAct.failure e)) := by
  rcases List.eq_nil_or_concat as with h | ⟨as', a, h⟩
  · subst h
    refine ⟨fun _ => rfl, fun hc => ?_, fun hc => ?_⟩ <;> simp_all [runActs, Failable.init]
  · subst h
    rw [List.concat_eq_append, runActs_concat]
    cases a with
    | success v =>
        refine ⟨fun hc => ?_, fun _ => ⟨v, rfl, ?_⟩, fun hc => ?_⟩ <;>
          simp_all [FAct.result]
    | failure e =>
        refine ⟨fun hc => ?_, fun hc => ?_, fun _ => ⟨e, rfl, ?_⟩⟩ <;>
          simp_all [FAct.result]
    | pending =>
        refine ⟨fun _ => rfl, fun hc => ?_, fun hc => ?_⟩ <;>
          simp_all [FAct.result]

/-- Witness for C6 at the concrete action sequence
`[pending, failure 7, success 3]`. -/
theorem failable_payload_determined_by_state_witness :
    (runActs Failable.init
      [FAct.pending, FAct.failure 7, FAct.success (3 : Nat)]).data
      = some 3 := by
  obtain ⟨v, hv, hlast⟩ :=
    (failable_payload_determined_by_state
      [FAct.pending, FAct.failure 7, FAct.success (3 : Nat)]).2.1 (by rfl)
  simp at hlast
  rw [hv, hlast]

/-- A promise's eventual outcome: fulfilled with a value, or rejected with
a reason. -/
inductive Outcome (α : Type)
  | fulfilled (v : α)
  | rejected (e : α)
  deriving DecidableEq, Repr

/-- The transition the settlement callbacks registered by `accept`
(`.then(f.success, f.failure)`) perform for a given outcome. -/
def Outcome.act {α : Type} : Outcome α → FAct α
  | Outcome.fulfilled v => FAct.success v
  | Outcome.rejected e => FAct.failure e

/-- `accept` from `src/extensions.ts` on a `Failable`:
`f.pending(); Promise.resolve(promise).then(f.success, f.failure); return f;`.
The first component is the holder returned synchronously (already
transitioned to pending); the second is the settlement continuation, which
is invoked exactly once, later, on whatever holder state exists at
settlement time. -/
def accept {α : Type} (f : Failable α) :
    Failable α × (Outcome α → Failable α → Failable α) :=
  (Failable.pending f, fun oc h => FAct.apply h (Outcome.act oc))

/-- The sequence of transitions the accept protocol executes, given that
the promise eventually settles with outcome `oc`: the synchronous pending
transition runs before the settlement callbacks are even registered, and
the settlement transition runs once, afterwards. -/
def acceptScript {α : Type} (oc : Outcome α) : List (FAct α) :=
  [FAct.pending, Outcome.act oc]

/-- True of the settlement actions (`success`/`failure`), false of the
synchronous entering-flight action. -/
def FAct.isSettle {α : Type} : FAct α → Bool
  | FAct.pending => false
  | _ => true

/-- `State` from `src/loadable/state.ts`: the six states of a `Loadable`. -/
inductive LState
  | empty
  | pending
  | success
  | reloading
  | failure
  | retrying
  deriving DecidableEq, Repr

/-- `Availability` from `src/loadable/traits.ts`: no data, some data, or
some error.  The numeric enum values are recovered by `toNat`. -/
inductive Availability
  | none
  | value
  | error
  deriving DecidableEq, Repr

/-- Numeric values of the `Availability` enum (`none = 0`, `value = 1`,
`error = 2`). -/
def Availability.toNat : Availability → Nat
  | Availability.none => 0
  | Availability.value => 1
  | Availability.error => 2

/-- `Flight` from `src/loadable/traits.ts`: idle or busy. -/
inductive Flight
  | idle
  | busy
  deriving DecidableEq, Repr

/-- Numeric values of the `Flight` enum (`idle = 0`, `busy = 1`). -/
def Flight.toNat : Flight → Nat
  | Flight.idle => 0
  | Flight.busy => 1

/-- `fOffset` from `src/loadable/traits.ts`. -/
def fOffset : Nat := 0

/-- `fMask` from `src/loadable/traits.ts`. -/
def fMask : Nat := 1

/-- `aOffset` from `src/loadable/traits.ts`. -/
def aOffset : Nat := 1

/-- `aMask` from `src/loadable/traits.ts` (`0b0110`). -/
def aMask : Nat := 6

/-- `TraitSet` from `src/loadable/traits.ts`: the packed bitmap of a
state, `(availability << aOffset) | flight`. -/
def TraitSet : LState → Nat
  | LState.empty => (Availability.none.toNat <<< aOffset) ||| Flight.idle.toNat
  | LState.pending => (Availability.none.toNat <<< aOffset) ||| Flight.busy.toNat
  | LState.success => (Availability.value.toNat <<< aOffset) ||| Flight.idle.toNat
  | LState.reloading => (Availability.value.toNat <<< aOffset) ||| Flight.busy.toNat
  | LState.failure => (Availability.error.toNat <<< aOffset) ||| Flight.idle.toNat
  | LState.retrying => (Availability.error.toNat <<< aOffset) ||| Flight.busy.toNat

/-- `toState` from `src/loadable/traits.ts`: packed bits back to a state;
throws a `TypeError` (modelled as `Except.error`) for the two unused
codes and anything out of range. -/
def toState (traits : Nat) : Except String LState :=
  if traits = (Availability.none.toNat <<< aOffset) ||| Flight.idle.toNat then
    Except.ok LState.empty
  else if traits = (Availability.none.toNat <<< aOffset) ||| Flight.busy.toNat then
    Except.ok LState.pending
  else if traits = (Availability.value.toNat <<< aOffset) ||| Flight.idle.toNat then
    Except.ok LState.success
  else if traits = (Availability.value.toNat <<< aOffset) ||| Flight.busy.toNat then
    Except.ok LState.reloading
  else if traits = (Availability.error.toNat <<< aOffset) ||| Flight.idle.toNat then
    Except.ok LState.failure
  else if traits = (Availability.error.toNat <<< aOffset) ||| Flight.busy.toNat then
    Except.ok LState.retrying
  else
    Except.error ("Invalid traits bitset given: " ++ toString traits)

/-- `flightOf` from `src/loadable/traits.ts`: duck-typed on a state
(string) or an already-packed trait value (number); extracts the flight
bits. -/
def flightOf (input : Sum LState Nat) : Nat :=
  let traits := match input with
    | Sum.inl state => TraitSet state
    | Sum.inr t => t
  (traits &&& fMask) >>> fOffset

/-- `availabilityOf` from `src/loadable/traits.ts`: duck-typed like
`flightOf`; extracts the availability bits. -/
def availabilityOf (input : Sum LState Nat) : Nat :=
  let traits := match input with
    | Sum.inl state => TraitSet state
    | Sum.inr t => t
  (traits &&& aMask) >>> aOffset

/-- `withFlight` from `src/loadable/traits.ts`: decode availability from
the state, re-encode with the new flight, decode back to a state. -/
def withFlight (state : LState) (flight : Flight) : Except String LState :=
  let availability := availabilityOf (Sum.inl state)
  toState ((availability <<< aOffset) ||| flight.toNat)

/-- `withAvailability` from `src/loadable/traits.ts`: symmetric to
`withFlight`, preserving flight. -/
def withAvailability (state : LState) (availability : Availability) :
    Except String LState :=
  let flight := flightOf (Sum.inl state)
  toState ((availability.toNat <<< aOffset) ||| flight)

/-- Lifecycle hooks of a `Loadable` (`didBecomeSuccess`,
`didBecomeFailure`, `didBecomeLoading`); the holder records their
invocations in order. -/
inductive LHook
  | becameSuccess
  | becameFailure
  | becameLoading
  deriving DecidableEq, Repr

/-- The six-state holder `Loadable` from `src/loadable/index.ts`: an
observable `state`, a `data` field (`none` = `undefined`), and the log of
lifecycle-hook invocations. -/
structure Loadable (α : Type) where
  state : LState
  data : Option α
  log : List LHook
  deriving DecidableEq, Repr

/-- The constructor state of a `Loadable`: `state = empty`,
`data = undefined`, no hooks fired. -/
def Loadable.init {α : Type} : Loadable α :=
  { state := LState.empty, data := none, log := [] }

/-- `Loadable.isSuccess`: `availabilityOf(this.state) === Availability.value`. -/
def Loadable.isSuccess {α : Type} (l : Loadable α) : Bool :=
  decide (availabilityOf (Sum.inl l.state) = Availability.value.toNat)

/-- `Loadable.isFailure`: `availabilityOf(this.state) === Availability.error`. -/
def Loadable.isFailure {α : Type} (l : Loadable α) : Bool :=
  decide (availabilityOf (Sum.inl l.state) = Availability.error.toNat)

/-- `Loadable.isPending`: `availabilityOf(this.state) === Availability.none`. -/
def Loadable.isPending {α : Type} (l : Loadable α) : Bool :=
  decide (availabilityOf (Sum.inl l.state) = Availability.none.toNat)

/-- `Loadable.isLoading`: `flightOf(this.state) === Flight.busy`. -/
def Loadable.isLoading {α : Type} (l : Loadable α) : Bool :=
  decide (flightOf (Sum.inl l.state) = Flight.busy.toNat)

/-- `Loadable.success` from `src/loadable/index.ts`: sets `state` to
`success` and `data` to the given value, then invokes
`didBecomeSuccess`. -/
def Loadable.success {α : Type} (l : Loadable α) (data : α) : Loadable α :=
  { state := LState.success, data := some data
    log := l.log ++ [LHook.becameSuccess] }

/-- `Loadable.failure` from `src/loadable/index.ts`: sets `state` to
`failure` and `data` to the given error, then invokes
`didBecomeFailure`. -/
def Loadable.failure {α : Type} (l : Loadable α) (error : α) : Loadable α :=
  { state := LState.failure, data := some error
    log := l.log ++ [LHook.becameFailure] }

/-- `Loadable.loading` from `src/loadable/index.ts`: computes
`withFlight(oldState, Flight.busy)`; if the state actually changed, stores
it and invokes `didBecomeLoading`, otherwise does nothing.  `data` is
never touched. -/
def Loadable.loading {α : Type} (l : Loadable α) : Except String (Loadable α) :=
  let oldState := l.state
  match withFlight oldState Flight.busy with
  | Except.error msg => Except.error msg
  | Except.ok newState =>
      if oldState ≠ newState then
        Except.ok { l with state := newState
                           log := l.log ++ [LHook.becameLoading] }
      else
        Except.ok l

/-- `Loadable.pending` from `src/loadable/index.ts`: an alias to
`loading`; unlike standard `Future` behavior it does not clear existing
data. -/
def Loadable.pending {α : Type} (l : Loadable α) : Except String (Loadable α) :=
  Loadable.loading l

/-- `Loadable.MatchOptions` from `src/loadable/index.ts`: like the
three-state options, but every callback additionally receives a trailing
`loading` flag. -/
structure LMatchOptions (α β : Type) where
  success : Option α → Bool → β
  failure : Option α → Bool → β
  pending : Bool → β

/-- `match` from `src/loadable/match.ts`: dispatch keyed by availability
(success/reloading, failure/retrying, empty/pending), passing the raw
`data` field and the `isLoading` flag. -/
def lmatch {α β : Type} (state : LState) (data : Option α)
    (isLoading : Bool) (options : LMatchOptions α β) : β :=
  match state with
  | LState.success => options.success data isLoading
  | LState.reloading => options.success data isLoading
  | LState.failure => options.failure data isLoading
  | LState.retrying => options.failure data isLoading
  | LState.empty => options.pending isLoading
  | LState.pending => options.pending isLoading

/-- `Loadable.match`: delegates to `lmatch` on the holder's own fields and
its `isLoading` computed property. -/
def Loadable.matchM {α β : Type} (l : Loadable α)
    (options : LMatchOptions α β) : β :=
  lmatch l.state l.data l.isLoading options

/-- C7: encoding any of the six `Loadable` states into its packed trait
bitset and decoding it back yields the same state:
`toState(TraitSet(s)) === s`. -/
theorem toState_traitSet_roundtrip (s : LState) :
    toState (TraitSet s) = Except.ok s := by
  cases s <;> rfl

/-- The idle member of each availability class, as the spec describes it
(`empty`, `success`, `failure`); the three busy states map to their idle
counterparts. -/
def specIdleOf : LState → LState
  | LState.empty => LState.empty
  | LState.pending => LState.empty
  | LState.success => LState.success
  | LState.reloading => LState.success
  | LState.failure => LState.failure
  | LState.retrying => LState.failure

/-- C8 counterexample: at `s = pending`,
`withFlight(withFlight(s, busy), idle)` yields `empty`, whose flight
(idle) differs from the original flight of `pending` (busy) — so the
double application does not restore the original flight for all six
states. -/
theorem withFlight_double_not_flight_restoring :
    (withFlight LState.pending Flight.busy).bind
        (fun s => withFlight s Flight.idle) = Except.ok LState.empty
    ∧ ¬ flightOf (Sum.inl LState.empty) = flightOf (Sum.inl LState.pending) := by
  exact ⟨rfl, by decide⟩

/-- C8 (amended): for all six states,
`withFlight(withFlight(s, busy), idle)` equals `withFlight(s, idle)` — it
preserves availability but lands on flight idle (the idle member of the
state's availability class), so it restores the original state (and
flight) exactly for the three idle states. -/
theorem withFlight_busy_then_idle (s : LState) :
    (withFlight s Flight.busy).bind (fun s2 => withFlight s2 Flight.idle)
        = withFlight s Flight.idle
    ∧ withFlight s Flight.idle = Except.ok (specIdleOf s)
    ∧ availabilityOf (Sum.inl (specIdleOf s)) = availabilityOf (Sum.inl s)
    ∧ flightOf (Sum.inl (specIdleOf s)) = Flight.idle.toNat := by
  cases s <;> exact ⟨rfl, rfl, rfl, rfl⟩

/-- The busy member of each availability class, as the spec describes the
effect of `loading()`: from `empty` to `pending`, from `success` to
`reloading`, from `failure` to `retrying`; busy states stay put. -/
def specBusyOf : LState → LState
  | LState.empty => LState.pending
  | LState.pending => LState.pending
  | LState.success => LState.reloading
  | LState.reloading => LState.reloading
  | LState.failure => LState.retrying
  | LState.retrying => LState.retrying

theorem withFlight_busy_eq (s : LState) :
    withFlight s Flight.busy = Except.ok (specBusyOf s) := by
  cases s <;> rfl

theorem loading_eq {α : Type} (l : Loadable α) :
    Loadable.loading l = Except.ok
      (if l.isLoading then l
       else { state := specBusyOf l.state, data := l.data
              log := l.log ++ [LHook.becameLoading] }) := by
  obtain ⟨s, d, g⟩ := l
  cases s <;>
    simp [Loadable.loading, withFlight_busy_eq, specBusyOf, Loadable.isLoading,
      flightOf, TraitSet, fMask, fOffset, Flight.toNat, Availability.toNat,
      aOffset]

/-- C4: `loading()` (and its argumentless alias `pending()`) flips only
the flight bit to busy, keeping availability and payload unchanged
(`empty → pending`, `success → reloading`, `failure → retrying`); on an
already-busy holder it is a no-op that leaves the holder — including its
hook log — untouched, and when it does change the state it fires the
loading hook exactly once. -/
theorem loadable_loading_flips_flight {α : Type} (l : Loadable α) :
    Loadable.pending l = Loadable.loading l
    ∧ Loadable.loading l = Except.ok
        (if l.isLoading then l
         else { state := specBusyOf l.state, data := l.data
                log := l.log ++ [LHook.becameLoading] })
    ∧ availabilityOf (Sum.inl (specBusyOf l.state))
        = availabilityOf (Sum.inl l.state)
    ∧ flightOf (Sum.inl (specBusyOf l.state)) = Flight.busy.toNat := by
  refine ⟨rfl, loading_eq l, ?_, ?_⟩ <;> cases l.state <;> decide

/-- C5: from any of the six states, `success(value)` lands on the idle
`success` state with the given payload and fires the success hook, and
`failure(error)` lands on the idle `failure` state with the given payload
and fires the failure hook, regardless of the prior flight trait. -/
theorem loadable_success_failure_land_idle {α : Type} (l : Loadable α)
    (v e : α) :
    Loadable.success l v = { state := LState.success, data := some v
                             log := l.log ++ [LHook.becameSuccess] }
    ∧ Loadable.failure l e = { state := LState.failure, data := some e
                               log := l.log ++ [LHook.becameFailure] }
    ∧ flightOf (Sum.inl LState.success) = Flight.idle.toNat
    ∧ flightOf (Sum.inl LState.failure) = Flight.idle.toNat
    ∧ availabilityOf (Sum.inl LState.success) = Availability.value.toNat
    ∧ availabilityOf (Sum.inl LState.failure) = Availability.error.toNat := by
  exact ⟨rfl, rfl, rfl, rfl, rfl, rfl⟩

/-- C10: on every `Loadable`, exactly one of `isSuccess`, `isFailure`,
`isPending` is true (they partition the six states by availability); in
the `empty` state `isPending` is true while `isLoading` is false and
`match` invokes the `pending` callback with the loading flag `false` — in
particular for a freshly constructed, never-transitioned holder. -/
theorem loadable_predicates_partition {α : Type} :
    (∀ l : Loadable α,
      (l.isSuccess = true ∧ l.isFailure = false ∧ l.isPending = false)
      ∨ (l.isSuccess = false ∧ l.isFailure = true ∧ l.isPending = false)
      ∨ (l.isSuccess = false ∧ l.isFailure = false ∧ l.isPending = true))
    ∧ (∀ l : Loadable α, l.state = LState.empty →
        l.isPending = true ∧ l.isLoading = false
        ∧ ∀ (β : Type) (options : LMatchOptions α β),
            Loadable.matchM l options = options.pending false)
    ∧ (Loadable.init (α := α)).state = LState.empty := by
  refine ⟨fun l => ?_, fun l h => ?_, rfl⟩
  · obtain ⟨s, d, g⟩ := l
    cases s <;>
      simp [Loadable.isSuccess, Loadable.isFailure, Loadable.isPending,
        availabilityOf, TraitSet, aMask, aOffset, Availability.toNat,
        Flight.toNat] <;> decide
  · obtain ⟨s, d, g⟩ := l
    dsimp at h
    subst h
    refine ⟨?_, ?_, fun β options => ?_⟩ <;>
      simp [Loadable.isPending, Loadable.isLoading, Loadable.matchM, lmatch,
        availabilityOf, flightOf, TraitSet, aMask, aOffset, fMask, fOffset,
        Availability.toNat, Flight.toNat]

/-- Witness for C10 at the freshly constructed holder
`Loadable.init : Loadable Nat`. -/
theorem loadable_predicates_partition_witness :
    (Loadable.init (α := Nat)).isPending = true
    ∧ (Loadable.init (α := Nat)).isLoading = false := by
  obtain ⟨h1, h2, _⟩ :=
    (loadable_predicates_partition (α := Nat)).2.1 Loadable.init rfl
  exact ⟨h1, h2⟩

/-- The settlement continuation the `Loadable.accept` protocol registers:
`success` on fulfillment, `failure` on rejection. -/
def Loadable.settle {α : Type} (oc : Outcome α) (l : Loadable α) :
    Loadable α :=
  match oc with
  | Outcome.fulfilled v => Loadable.success l v
  | Outcome.rejected e => Loadable.failure l e

/-- `Loadable.accept`'s synchronous part: `accept` from
`src/extensions.ts` first calls `f.pending()`, which on a `Loadable` is
the alias for `loading()`; the settlement callbacks are registered only
afterwards. -/
def Loadable.acceptSync {α : Type} (l : Loadable α) :
    Except String (Loadable α) :=
  Loadable.pending l

/-- C2: `accept(p)` performs its synchronous pending/entering-flight
transition first — the settlement callbacks are registered only after it,
so the pending transition is the head of the protocol's transition
sequence and the single settlement transition comes after — returns the
(already transitioned) holder immediately, and then, exactly once,
transitions to success with the resolved value on fulfillment or to
failure with the rejection reason on rejection.  Stated for the
three-state `Failable` and the six-state `Loadable`. -/
theorem accept_protocol {α : Type} :
    (∀ (f : Failable α) (oc : Outcome α),
      (accept f).1 = Failable.pending f
      ∧ (accept f).1.state = FutureState.pending
      ∧ (accept f).1.data = none
      ∧ (acceptScript (α := α) oc).head? = some FAct.pending
      ∧ ((acceptScript (α := α) oc).filter FAct.isSettle).length = 1
      ∧ runActs f (acceptScript oc) = (accept f).2 oc (accept f).1
      ∧ (∀ v, (accept f).2 (Outcome.fulfilled v) (accept f).1
          = { state := FutureState.success, data := some v })
      ∧ (∀ e, (accept f).2 (Outcome.rejected e) (accept f).1
          = { state := FutureState.failure, data := some e }))
    ∧ (∀ l : Loadable α,
      ∃ l2, Loadable.acceptSync l = Except.ok l2
      ∧ l2.data = l.data
      ∧ l2.isLoading = true
      ∧ (∀ v, (Loadable.settle (Outcome.fulfilled v) l2).state = LState.success
          ∧ (Loadable.settle (Outcome.fulfilled v) l2).data = some v)
      ∧ (∀ e, (Loadable.settle (Outcome.rejected e) l2).state = LState.failure
          ∧ (Loadable.settle (Outcome.rejected e) l2).data = some e)) := by
  constructor
  · intro f oc
    refine ⟨rfl, rfl, rfl, rfl, by cases oc <;> rfl, by cases oc <;> rfl,
      fun v => rfl, fun e => rfl⟩
  · intro l
    refine ⟨if l.isLoading then l
            else { state := specBusyOf l.state, data := l.data
                   log := l.log ++ [LHook.becameLoading] },
      loading_eq l, ?_, ?_, fun v => ⟨rfl, rfl⟩, fun e => ⟨rfl, rfl⟩⟩
    · by_cases h : l.isLoading = true <;> simp [h]
    · by_cases h : l.isLoading = true
      · simp [h]
      · simp only [if_neg h]
        cases l.state <;>
          simp [specBusyOf, Loadable.isLoading, flightOf, TraitSet, fMask,
            fOffset, Flight.toNat, Availability.toNat, aOffset]

/-- `Future.DeriveOptions` from `src/future.ts`: up to three optional
transform callbacks (the option type statically requires at least one; the
transform step only consults presence).  A callback that throws is
modelled by returning `Except.error` with the thrown value. -/
structure FDeriveOptions (α : Type) where
  success : Option (Option α → Except α α)
  failure : Option (Option α → Except α α)
  pending : Option (Unit → Except α α)

/-- `DerivedFailable.transformWith` from `src/failable/derived.ts`: call
the transform; a normal return transitions to success with the result, a
throw transitions to failure with the thrown value. -/
def DerivedFailable.transformWith {α : Type} (f : Option α → Except α α)
    (v : Option α) : FutureState × Option α :=
  match f v with
  | Except.ok result => (FutureState.success, some result)
  | Except.error e => (FutureState.failure, some e)

/-- `DerivedFailable.transform` from `src/failable/derived.ts`: one
recomputation step.  Dispatches on the underlying holder via its `match`;
for each case, a registered callback is run through `transformWith`, and
an unregistered case is mirrored verbatim (`transitionTo(State.success,
value as never)` / `(State.failure, error)` / `(State.pending,
undefined)`).  Returns the derived holder's new `(state, data)` pair. -/
def DerivedFailable.transform {α : Type} (u : Failable α)
    (options : FDeriveOptions α) : FutureState × Option α :=
  Failable.matchM u
    { success := fun value =>
        match options.success with
        | some f => DerivedFailable.transformWith f value
        | none => (FutureState.success, value)
      failure := fun error =>
        match options.failure with
        | some f => DerivedFailable.transformWith f error
        | none => (FutureState.failure, error)
      pending := fun _ =>
        match options.pending with
        | some f =>
            (match f () with
             | Except.ok result => (FutureState.success, some result)
             | Except.error e => (FutureState.failure, some e))
        | none => (FutureState.pending, none) }

/-- The three-state derived transform step as the spec words it: if a
transform callback is registered for the source's current case, a normal
return transitions to success with the returned value and a throw
transitions to failure with the thrown value; an unregistered case is
mirrored verbatim (the pending case carrying no payload). -/
def fDerivedStepSpec {α : Type} (u : Failable α)
    (options : FDeriveOptions α) : FutureState × Option α :=
  match u.state, options.success, options.failure, options.pending with
  | FutureState.success, some f, _, _ =>
      (match f u.data with
       | Except.ok r => (FutureState.success, some r)
       | Except.error e => (FutureState.failure, some e))
  | FutureState.success, none, _, _ => (FutureState.success, u.data)
  | FutureState.failure, _, some f, _ =>
      (match f u.data with
       | Except.ok r => (FutureState.success, some r)
       | Except.error e => (FutureState.failure, some e))
  | FutureState.failure, _, none, _ => (FutureState.failure, u.data)
  | FutureState.pending, _, _, some f =>
      (match f () with
       | Except.ok r => (FutureState.success, some r)
       | Except.error e => (FutureState.failure, some e))
  | FutureState.pending, _, _, none => (FutureState.pending, none)

/-- `Loadable.DeriveOptions` from `src/loadable/index.ts`: like the
three-state options, but the callbacks also receive the loading flag. -/
structure LDeriveOptions (α : Type) where
  success : Option (Option α → Bool → Except α α)
  failure : Option (Option α → Bool → Except α α)
  pending : Option (Bool → Except α α)

/-- `DerivedLoadable.transformWith` from `src/loadable/derived.ts`: if no
callback is registered, mirror the underlying holder's `state` and `data`
verbatim; otherwise call it with the payload and the loading flag — a
normal return transitions to `withAvailability(state, value)` with the
result, a throw to `withAvailability(state, error)` with the thrown value
(the flight bits of the source state are preserved either way). -/
def DerivedLoadable.transformWith {α : Type}
    (f : Option (Option α → Bool → Except α α)) (v : Option α)
    (state : LState) (u : Loadable α) : Except String (LState × Option α) :=
  match f with
  | none => Except.ok (u.state, u.data)
  | some f =>
      let isLoading := decide (flightOf (Sum.inl state) = Flight.busy.toNat)
      match f v isLoading with
      | Except.ok result =>
          (withAvailability state Availability.value).map
            (fun s2 => (s2, some result))
      | Except.error e =>
          (withAvailability state Availability.error).map
            (fun s2 => (s2, some e))

/-- `DerivedLoadable.transform` from `src/loadable/derived.ts`: one
recomputation step.  Reads the underlying holder's exposed `state`/`data`,
switches on `availabilityOf(state)` (with the pending-availability branch
inlined because of the different callback arity; a switch fall-through —
impossible for a real state — leaves the derived holder's previous pair
`prev` unchanged), and returns the derived holder's new `(state, data)`
pair. -/
def DerivedLoadable.transform {α : Type} (prev : LState × Option α)
    (u : Loadable α) (options : LDeriveOptions α) :
    Except String (LState × Option α) :=
  let state := u.state
  let data := u.data
  if availabilityOf (Sum.inl state) = Availability.value.toNat then
    DerivedLoadable.transformWith options.success data state u
  else if availabilityOf (Sum.inl state) = Availability.error.toNat then
    DerivedLoadable.transformWith options.failure data state u
  else if availabilityOf (Sum.inl state) = Availability.none.toNat then
    match options.pending with
    | none => Except.ok (u.state, u.data)
    | some f =>
        let isLoading := decide (flightOf (Sum.inl state) = Flight.busy.toNat)
        match f isLoading with
        | Except.ok result =>
            (withAvailability state Availability.value).map
              (fun s2 => (s2, some result))
        | Except.error e =>
            (withAvailability state Availability.error).map
              (fun s2 => (s2, some e))
  else
    Except.ok prev

/-- The availability class of a six-state state, as the spec describes it
(`value` ⇔ success/reloading, `error` ⇔ failure/retrying, `none` ⇔
empty/pending). -/
def specAvailOf : LState → Availability
  | LState.empty => Availability.none
  | LState.pending => Availability.none
  | LState.success => Availability.value
  | LState.reloading => Availability.value
  | LState.failure => Availability.error
  | LState.retrying => Availability.error

/-- The flight trait of a six-state state, as the spec describes it (busy
⇔ pending/reloading/retrying). -/
def specFlightOf : LState → Flight
  | LState.empty => Flight.idle
  | LState.pending => Flight.busy
  | LState.success => Flight.idle
  | LState.reloading => Flight.busy
  | LState.failure => Flight.idle
  | LState.retrying => Flight.busy

/-- The six-state state with the given availability and flight, as the
spec's two-axis table describes the state space. -/
def specMkState : Availability → Flight → LState
  | Availability.none, Flight.idle => LState.empty
  | Availability.none, Flight.busy => LState.pending
  | Availability.value, Flight.idle => LState.success
  | Availability.value, Flight.busy => LState.reloading
  | Availability.error, Flight.idle => LState.failure
  | Availability.error, Flight.busy => LState.retrying

theorem availabilityOf_state (s : LState) :
    availabilityOf (Sum.inl s) = (specAvailOf s).toNat := by
  cases s <;> rfl

theorem flightOf_state (s : LState) :
    flightOf (Sum.inl s) = (specFlightOf s).toNat := by
  cases s <;> rfl

theorem withAvailability_ok (s : LState) (a : Availability) :
    withAvailability s a = Except.ok (specMkState a (specFlightOf s)) := by
  cases s <;> cases a <;> rfl

/-- The six-state derived transform step as the spec words it: with a
callback registered for the source's availability case, a normal return
lands on the success-equivalent case (availability `value`, source flight
preserved) with the returned value, and a throw lands on the
failure-equivalent case (availability `error`, flight preserved) with the
thrown value; without one, the source's case and payload are mirrored
verbatim. -/
def lDerivedStepSpec {α : Type} (u : Loadable α)
    (options : LDeriveOptions α) : LState × Option α :=
  let busy : Bool := decide (specFlightOf u.state = Flight.busy)
  match specAvailOf u.state, options.success, options.failure,
      options.pending with
  | Availability.value, some f, _, _ =>
      (match f u.data busy with
       | Except.ok r => (specMkState Availability.value (specFlightOf u.state), some r)
       | Except.error e => (specMkState Availability.error (specFlightOf u.state), some e))
  | Availability.value, none, _, _ => (u.state, u.data)
  | Availability.error, _, some f, _ =>
      (match f u.data busy with
       | Except.ok r => (specMkState Availability.value (specFlightOf u.state), some r)
       | Except.error e => (specMkState Availability.error (specFlightOf u.state), some e))
  | Availability.error, _, none, _ => (u.state, u.data)
  | Availability.none, _, _, some f =>
      (match f busy with
       | Except.ok r => (specMkState Availability.value (specFlightOf u.state), some r)
       | Except.error e => (specMkState Availability.error (specFlightOf u.state), some e))
  | Availability.none, _, _, none => (u.state, u.data)

/-- C1: each recomputation of a derived holder's transform step behaves
exactly as specified, for both the three-state and the six-state derived
holders: a registered callback's normal return lands on the
success-equivalent case with the returned value (flight preserved for
six-state), a throw lands on the failure-equivalent case with the thrown
value (flight preserved, the exception caught locally), and an
unregistered case is mirrored verbatim without invoking any callback (the
six-state step also never fails and ignores the derived holder's previous
pair). -/
theorem derived_transform_correct {α : Type} :
    (∀ (u : Failable α) (options : FDeriveOptions α),
      DerivedFailable.transform u options = fDerivedStepSpec u options)
    ∧ (∀ (prev : LState × Option α) (u : Loadable α)
        (options : LDeriveOptions α),
      DerivedLoadable.transform prev u options
        = Except.ok (lDerivedStepSpec u options)) := by
  constructor
  · intro u options
    obtain ⟨s, d⟩ := u
    obtain ⟨os, of, op⟩ := options
    cases s <;> cases os <;> cases of <;> cases op <;> rfl
  · intro prev u options
    obtain ⟨s, d, g⟩ := u
    obtain ⟨os, of, op⟩ := options
    cases s
    · cases op with
      | none =>
          simp [DerivedLoadable.transform, DerivedLoadable.transformWith,
            lDerivedStepSpec, specAvailOf, specFlightOf, specMkState,
            availabilityOf_state, flightOf_state, withAvailability_ok,
            Availability.toNat, Flight.toNat]
      | some f =>
          cases hr : f false <;>
            simp [DerivedLoadable.transform, DerivedLoadable.transformWith,
              lDerivedStepSpec, specAvailOf, specFlightOf, specMkState,
              availabilityOf_state, flightOf_state, withAvailability_ok,
              Availability.toNat, Flight.toNat, Except.map, hr]
    · cases op with
      | none =>
          simp [DerivedLoadable.transform, DerivedLoadable.transformWith,
            lDerivedStepSpec, specAvailOf, specFlightOf, specMkState,
            availabilityOf_state, flightOf_state, withAvailability_ok,
            Availability.toNat, Flight.toNat]
      | some f =>
          cases hr : f true <;>
            simp [DerivedLoadable.transform, DerivedLoadable.transformWith,
              lDerivedStepSpec, specAvailOf, specFlightOf, specMkState,
              availabilityOf_state, flightOf_state, withAvailability_ok,
              Availability.toNat, Flight.toNat, Except.map, hr]
    · cases os with
      | none =>
          simp [DerivedLoadable.transform, DerivedLoadable.transformWith,
            lDerivedStepSpec, specAvailOf, specFlightOf, specMkState,
            availabilityOf_state, flightOf_state, withAvailability_ok,
            Availability.toNat, Flight.toNat]
      | some f =>
          cases hr : f d false <;>
            simp [DerivedLoadable.transform, DerivedLoadable.transformWith,
              lDerivedStepSpec, specAvailOf, specFlightOf, specMkState,
              availabilityOf_state, flightOf_state, withAvailability_ok,
              Availability.toNat, Flight.toNat, Except.map, hr]
    · cases os with
      | none =>
          simp [DerivedLoadable.transform, DerivedLoadable.transformWith,
            lDerivedStepSpec, specAvailOf, specFlightOf, specMkState,
            availabilityOf_state, flightOf_state, withAvailability_ok,
            Availability.toNat, Flight.toNat]
      | some f =>
          cases hr : f d true <;>
            simp [DerivedLoadable.transform, DerivedLoadable.transformWith,
              lDerivedStepSpec, specAvailOf, specFlightOf, specMkState,
              availabilityOf_state, flightOf_state, withAvailability_ok,
              Availability.toNat, Flight.toNat, Except.map, hr]
    · cases of with
      | none =>
          simp [DerivedLoadable.transform, DerivedLoadable.transformWith,
            lDerivedStepSpec, specAvailOf, specFlightOf, specMkState,
            availabilityOf_state, flightOf_state, withAvailability_ok,
            Availability.toNat, Flight.toNat]
      | some f =>
          cases hr : f d false <;>
            simp [DerivedLoadable.transform, DerivedLoadable.transformWith,
              lDerivedStepSpec, specAvailOf, specFlightOf, specMkState,
              availabilityOf_state, flightOf_state, withAvailability_ok,
              Availability.toNat, Flight.toNat, Except.map, hr]
    · cases of with
      | none =>
          simp [DerivedLoadable.transform, DerivedLoadable.transformWith,
            lDerivedStepSpec, specAvailOf, specFlightOf, specMkState,
            availabilityOf_state, flightOf_state, withAvailability_ok,
            Availability.toNat, Flight.toNat]
      | some f =>
          cases hr : f d true <;>
            simp [DerivedLoadable.transform, DerivedLoadable.transformWith,
              lDerivedStepSpec, specAvailOf, specFlightOf, specMkState,
              availabilityOf_state, flightOf_state, withAvailability_ok,
              Availability.toNat, Flight.toNat, Except.map, hr]

/-- The `Never` sentinel from `src/failable/index.ts`
(`const never: Never = new Object() as any`): a fresh object, distinct
from every payload value. -/
structure Never where
  mk ::

/-- The sentinel instance. -/
def never : Never := Never.mk

/-- The interface surface of a `ReadonlyFuture` input that `Failable.all`
consumes: its `isFailure`/`isPending` predicates and the results of
`failureOr(never)` / `successOr(never)` (`Sum.inr` means the input's
`match` dispatched away from the corresponding case, so the sentinel
default came back). -/
structure RFuture (α : Type) where
  isFailure : Bool
  isPending : Bool
  failureOrNever : Sum (Option α) Never
  successOrNever : Sum (Option α) Never

/-- View a concrete `Failable` through the interface surface that
`Failable.all` consumes. -/
def Failable.toRFuture {α : Type} (f : Failable α) : RFuture α :=
  { isFailure := Failable.isFailure f
    isPending := Failable.isPending f
    failureOrNever := failureOr f (Lazy.value never)
    successOrNever := successOr f (Lazy.value never) }

/-- The aggregate `(state, data)` outcome of one recomputation of
`Failable.all`'s reaction: the result holder is set to `failure` with the
failing input's raw error data, to `pending`, or to `success` with the
collected per-key values (raw data, preserving iteration order). -/
inductive AllOutcome (κ α : Type)
  | failure (e : Option α)
  | pending
  | success (vals : List (κ × Option α))
  deriving DecidableEq, Repr

/-- `Failable.all` from `src/failable/index.ts`, one recomputation of its
reaction over the entry list (`Object.entries(values)`); a mapping and an
array are both association lists here.  An empty entry list returns
success with an empty collection before any reactivity is set up.
Otherwise: the first entry with `isFailure` wins and its
`failureOr(never)` result is stored (if the sentinel came back instead the
internal `Future should have been a failure` error is thrown); else any
`isPending` entry makes the aggregate pending; else the values are
collected via `successOr(never)` per key, throwing the internal
`Futures should all be successfull` error if any sentinel came back. -/
def allScan {κ α : Type} (entries : List (κ × RFuture α)) :
    Except String (AllOutcome κ α) :=
  if entries.length = 0 then Except.ok (AllOutcome.success [])
  else
    match entries.find? (fun kv => kv.2.isFailure) with
    | some kv =>
        (match kv.2.failureOrNever with
         | Sum.inr _ => Except.error "Future should have been a failure"
         | Sum.inl e => Except.ok (AllOutcome.failure e))
    | none =>
        if entries.any (fun kv => kv.2.isPending) then
          Except.ok AllOutcome.pending
        else
          let vals := entries.map (fun kv => (kv.1, kv.2.successOrNever))
          if vals.any (fun kv => kv.2.isRight) then
            Except.error "Futures should all be successfull"
          else
            Except.ok (AllOutcome.success (vals.filterMap
              (fun kv =>
                match kv.2 with
                | Sum.inl v => some (kv.1, v)
                | Sum.inr _ => none)))

/-- The well-formed view of a three-state input (the holders reachable
through the transition actions): pending with no payload, success with a
value, or failure with an error. -/
inductive FView (α : Type)
  | pending
  | success (v : α)
  | failure (e : α)
  deriving DecidableEq, Repr

/-- The `Failable` holder a view denotes. -/
def FView.toFailable {α : Type} : FView α → Failable α
  | FView.pending => { state := FutureState.pending, data := none }
  | FView.success v => { state := FutureState.success, data := some v }
  | FView.failure e => { state := FutureState.failure, data := some e }

/-- Whether a view is the failure case. -/
def FView.isFailure {α : Type} : FView α → Bool
  | FView.failure _ => true
  | _ => false

/-- Whether a view is the pending case. -/
def FView.isPending {α : Type} : FView α → Bool
  | FView.pending => true
  | _ => false

/-- The error of a failure view. -/
def FView.errOf {α : Type} : FView α → Option α
  | FView.failure e => some e
  | _ => none

/-- The aggregation result as the spec words it. -/
inductive SpecOutcome (κ α : Type)
  | failure (e : α)
  | pending
  | success (vals : List (κ × α))
  deriving DecidableEq, Repr

/-- The error of the first failing input in iteration order, if any — the
spec's "scan inputs in iteration order; first such input wins". -/
def firstFailureErr {κ α : Type} : List (κ × FView α) → Option α
  | [] => none
  | (_, FView.failure e) :: _ => some e
  | _ :: rest => firstFailureErr rest

/-- The aggregation as the spec words it: failure with the first failing
input's error if any input is failure, else pending if any input is
pending, else success with the collected per-key success payloads in
original order; an empty input collection is an immediate success with an
empty collected value. -/
def allSpec {κ α : Type} (entries : List (κ × FView α)) : SpecOutcome κ α :=
  match firstFailureErr entries with
  | some e => SpecOutcome.failure e
  | none =>
      if entries.any (fun kv => kv.2.isPending) then
        SpecOutcome.pending
      else
        SpecOutcome.success (entries.filterMap
          (fun kv =>
            match kv.2 with
            | FView.success v => some (kv.1, v)
            | _ => none))

/-- Re-express a spec-level outcome in the raw `data` representation the
result holder stores. -/
def SpecOutcome.embed {κ α : Type} : SpecOutcome κ α → AllOutcome κ α
  | SpecOutcome.failure e => AllOutcome.failure (some e)
  | SpecOutcome.pending => AllOutcome.pending
  | SpecOutcome.success vals =>
      AllOutcome.success (vals.map (fun kv => (kv.1, some kv.2)))

/-- What `successOr(never)` returns on a well-formed input. -/
def FView.valOrNever {α : Type} : FView α → Sum (Option α) Never
  | FView.success v => Sum.inl (some v)
  | _ => Sum.inr never

/-- What `failureOr(never)` returns on a well-formed input. -/
def FView.errOrNever {α : Type} : FView α → Sum (Option α) Never
  | FView.failure e => Sum.inl (some e)
  | _ => Sum.inr never

/-- Abbreviation: a view, as the `ReadonlyFuture` surface `all` sees. -/
def FView.toRF {α : Type} (fv : FView α) : RFuture α :=
  (FView.toFailable fv).toRFuture

theorem toRF_isFailure {α : Type} (fv : FView α) :
    (FView.toRF fv).isFailure = fv.isFailure := by
  cases fv <;> rfl

theorem toRF_isPending {α : Type} (fv : FView α) :
    (FView.toRF fv).isPending = fv.isPending := by
  cases fv <;> rfl

theorem toRF_failureOrNever {α : Type} (fv : FView α) :
    (FView.toRF fv).failureOrNever = fv.errOrNever := by
  cases fv <;> rfl

theorem toRF_successOrNever {α : Type} (fv : FView α) :
    (FView.toRF fv).successOrNever = fv.valOrNever := by
  cases fv <;> rfl

theorem find_failure_map {κ α : Type} (entries : List (κ × FView α)) :
    (entries.map (fun kv => (kv.1, FView.toRF kv.2))).find?
        (fun kv => kv.2.isFailure)
      = (entries.find? (fun kv => kv.2.isFailure)).map
          (fun kv => (kv.1, FView.toRF kv.2)) := by
  induction entries with
  | nil => rfl
  | cons kv rest ih =>
      rcases kv with ⟨k, fv⟩
      cases fv <;> simp [List.find?, toRF_isFailure, FView.isFailure, ih]

theorem firstFailureErr_eq_find {κ α : Type} (entries : List (κ × FView α)) :
    firstFailureErr entries
      = (entries.find? (fun kv => kv.2.isFailure)).bind
          (fun kv => kv.2.errOf) := by
  induction entries with
  | nil => rfl
  | cons kv rest ih =>
      rcases kv with ⟨k, fv⟩
      cases fv <;> simp [firstFailureErr, List.find?, FView.isFailure,
        FView.errOf, ih]

theorem any_pending_map {κ α : Type} (entries : List (κ × FView α)) :
    (entries.map (fun kv => (kv.1, FView.toRF kv.2))).any
        (fun kv => kv.2.isPending)
      = entries.any (fun kv => kv.2.isPending) := by
  induction entries with
  | nil => rfl
  | cons kv rest ih =>
      rcases kv with ⟨k, fv⟩
      cases fv <;> simp [toRF_isPending, FView.isPending, ih]

theorem vals_map_eq {κ α : Type} (entries : List (κ × FView α)) :
    (entries.map (fun kv => (kv.1, FView.toRF kv.2))).map
        (fun kv => (kv.1, kv.2.successOrNever))
      = entries.map (fun kv => (kv.1, kv.2.valOrNever)) := by
  induction entries with
  | nil => rfl
  | cons kv rest ih =>
      rcases kv with ⟨k, fv⟩
      simp [toRF_successOrNever, ih]

theorem collect_filterMap_eq {κ α : Type} (entries : List (κ × FView α)) :
    ((entries.map (fun kv => (kv.1, kv.2.valOrNever))).filterMap
        (fun kv =>
          match kv.2 with
          | Sum.inl v => some (kv.1, v)
          | Sum.inr _ => none))
      = (entries.filterMap
          (fun kv =>
            match kv.2 with
            | FView.success v => some (kv.1, v)
            | _ => none)).map (fun kv => (kv.1, some kv.2)) := by
  rw [List.filterMap_map, List.map_filterMap]
  apply List.filterMap_congr
  intro kv _
  rcases kv with ⟨k, fv⟩
  cases fv <;> rfl

/-- C3: one recomputation of `Failable.all` over well-formed three-state
inputs agrees with the spec's scan: failure with the first failing input's
error when one exists, else pending when any input is pending, else
success with the per-key success payloads in original shape and order —
and an empty input collection is an immediate success with an empty
collected value. -/
theorem all_aggregation_matches_spec {κ α : Type}
    (entries : List (κ × FView α)) :
    allScan (entries.map (fun kv => (kv.1, FView.toRF kv.2)))
      = Except.ok (SpecOutcome.embed (allSpec entries)) := by
  cases entries with
  | nil => rfl
  | cons kv0 rest =>
      have hlen : ¬ ((kv0 :: rest).map
          (fun kv => (kv.1, FView.toRF kv.2))).length = 0 := by simp
      unfold allScan allSpec
      rw [if_neg hlen, find_failure_map, firstFailureErr_eq_find]
      cases hff : (kv0 :: rest).find? (fun kv => kv.2.isFailure) with
      | some kvf =>
          have hpred : FView.isFailure kvf.2 = true := by
            have h2 := List.find?_some hff
            simpa using h2
          rcases kvf with ⟨kf, fvf⟩
          cases fvf with
          | pending => simp [FView.isFailure] at hpred
          | success v => simp [FView.isFailure] at hpred
          | failure e => simp [FView.errOf, SpecOutcome.embed, toRF_failureOrNever, FView.errOrNever]
      | none =>
          simp only [Option.map_none, Option.bind_none]
          cases hp : (kv0 :: rest).any (fun kv => kv.2.isPending) with
          | true =>
              rw [any_pending_map, if_pos hp]
              rfl
          | false =>
            rw [any_pending_map, if_neg (by simp [hp])]
            have hnof : ∀ kv ∈ kv0 :: rest, kv.2.isFailure = false := by
              intro kv hkv
              have := List.find?_eq_none.mp hff kv hkv
              simpa using this
            have hnop : ∀ kv ∈ kv0 :: rest, kv.2.isPending = false := by
              intro kv hkv
              have := (List.any_eq_false).mp hp kv hkv
              simpa using this
            have hsucc : ∀ kv ∈ kv0 :: rest, ∃ v, kv.2 = FView.success v := by
              intro kv hkv
              cases h2 : kv.2 with
              | pending =>
                  have := hnop kv hkv
                  rw [h2] at this
                  simp [FView.isPending] at this
              | success v => exact ⟨v, rfl⟩
              | failure e =>
                  have := hnof kv hkv
                  rw [h2] at this
                  simp [FView.isFailure] at this
            have hvals : ((kv0 :: rest).map
                (fun kv => (kv.1, FView.toRF kv.2))).map
                  (fun kv => (kv.1, kv.2.successOrNever))
                = (kv0 :: rest).map (fun kv => (kv.1, kv.2.valOrNever)) :=
              vals_map_eq _
            rw [hvals]
            have hnoright : ((kv0 :: rest).map
                (fun kv => (kv.1, kv.2.valOrNever))).any
                  (fun kv => kv.2.isRight) = false := by
              rw [List.any_eq_false]
              intro kv hkv
              rw [List.mem_map] at hkv
              obtain ⟨kv2, hkv2, hkveq⟩ := hkv
              obtain ⟨v, hv⟩ := hsucc kv2 hkv2
              subst hkveq
              simp [hv, FView.valOrNever]
            rw [if_neg (by rw [hnoright]; simp)]
            rw [collect_filterMap_eq]
            rfl

/-- An input whose `match` dispatch agrees with its `isFailure`/`isPending`
predicates: when it reports failure, `failureOr(never)` yields its error
rather than the sentinel; when it reports success (neither failure nor
pending), `successOr(never)` yields its value rather than the sentinel. -/
def RFuture.Consistent {α : Type} (r : RFuture α) : Prop :=
  (r.isFailure = true → r.failureOrNever.isLeft = true)
  ∧ (r.isFailure = false → r.isPending = false →
      r.successOrNever.isLeft = true)

/-- C9: the two should-never-happen branches of `Failable.all` are
unreachable whenever every input's match dispatch is consistent with its
`isFailure`/`isPending` predicates (the scan then always stores a result);
and when an inconsistency does surface during the scan — the first
reported failure yields no error, or a reported success yields no value —
the aggregation throws the corresponding internal error instead of storing
a result. -/
theorem all_internal_check {κ α : Type} :
    (∀ entries : List (κ × RFuture α),
      (∀ kv ∈ entries, RFuture.Consistent kv.2) →
      ∃ out, allScan entries = Except.ok out)
    ∧ (∀ entries : List (κ × RFuture α), ∀ kvf : κ × RFuture α,
      entries.find? (fun kv => kv.2.isFailure) = some kvf →
      kvf.2.failureOrNever.isRight = true →
      allScan entries = Except.error "Future should have been a failure")
    ∧ (∀ entries : List (κ × RFuture α),
      entries.find? (fun kv => kv.2.isFailure) = none →
      entries.any (fun kv => kv.2.isPending) = false →
      entries.any (fun kv => kv.2.successOrNever.isRight) = true →
      allScan entries = Except.error "Futures should all be successfull") := by
  refine ⟨?_, ?_, ?_⟩
  · intro entries hcons
    cases entries with
    | nil => exact ⟨_, rfl⟩
    | cons kv0 rest =>
        have hlen : ¬ (kv0 :: rest).length = 0 := by simp
        unfold allScan
        rw [if_neg hlen]
        cases hff : (kv0 :: rest).find? (fun kv => kv.2.isFailure) with
        | some kvf =>
            dsimp only
            have hmem : kvf ∈ kv0 :: rest := List.mem_of_find?_eq_some hff
            have hpred : kvf.2.isFailure = true := by
              simpa using List.find?_some hff
            have hleft := (hcons kvf hmem).1 hpred
            cases hfn : kvf.2.failureOrNever with
            | inl e => exact ⟨_, rfl⟩
            | inr n => rw [hfn] at hleft; simp at hleft
        | none =>
            dsimp only
            cases hp : (kv0 :: rest).any (fun kv => kv.2.isPending) with
            | true => exact ⟨_, rfl⟩
            | false =>
                have hnoright : ((kv0 :: rest).map
                    (fun kv => (kv.1, kv.2.successOrNever))).any
                      (fun kv => kv.2.isRight) = false := by
                  rw [List.any_eq_false]
                  intro kv hkv
                  rw [List.mem_map] at hkv
                  obtain ⟨kv2, hkv2, hkveq⟩ := hkv
                  have hf2 : kv2.2.isFailure = false := by
                    simpa using List.find?_eq_none.mp hff kv2 hkv2
                  have hp2 : kv2.2.isPending = false := by
                    simpa using List.any_eq_false.mp hp kv2 hkv2
                  have hleft := (hcons kv2 hkv2).2 hf2 hp2
                  subst hkveq
                  cases hs : kv2.2.successOrNever with
                  | inl v => simp [hs]
                  | inr n => rw [hs] at hleft; simp at hleft
                have hcond : ¬ (((kv0 :: rest).map
                    (fun kv => (kv.1, kv.2.successOrNever))).any
                      (fun kv => kv.2.isRight) = true) := by
                  rw [hnoright]
                  simp
                rw [if_neg hcond]
                exact ⟨_, rfl⟩
  · intro entries kvf hff hr
    have hlen : ¬ entries.length = 0 := by
      cases entries
      · simp at hff
      · simp
    unfold allScan
    rw [if_neg hlen, hff]
    dsimp only
    cases hfn : kvf.2.failureOrNever with
    | inl e => rw [hfn] at hr; simp at hr
    | inr n => rfl
  · intro entries hff hp hany
    cases entries with
    | nil => simp at hany
    | cons kv0 rest =>
        unfold allScan
        rw [if_neg (by simp), hff]
        dsimp only
        rw [if_neg (by simp [hp])]
        have hv : ((kv0 :: rest).map
            (fun kv => (kv.1, kv.2.successOrNever))).any
              (fun kv => kv.2.isRight) = true := by
          rw [List.any_eq_true] at hany ⊢
          obtain ⟨kv, hkv, hr⟩ := hany
          exact ⟨(kv.1, kv.2.successOrNever),
            List.mem_map_of_mem _ hkv, hr⟩
        rw [if_pos hv]

/-- Witness for C9: a consistent failing input makes the scan store a
result, while an input that reports failure yet yields only the sentinel
triggers the internal error. -/
theorem all_internal_check_witness :
    (∃ out, allScan [((0 : Nat),
        (⟨true, false, Sum.inl (some 5), Sum.inr never⟩ : RFuture Nat))]
      = Except.ok out)
    ∧ allScan [((0 : Nat),
        (⟨true, false, Sum.inr never, Sum.inr never⟩ : RFuture Nat))]
      = Except.error "Future should have been a failure" := by
  constructor
  · refine all_internal_check.1 _ ?_
    intro kv hkv
    simp at hkv
    rw [hkv]
    exact ⟨fun _ => rfl, fun h => by simp at h⟩
  · exact all_internal_check.2.1 _
      ((0 : Nat), (⟨true, false, Sum.inr never, Sum.inr never⟩ : RFuture Nat))
      rfl rfl

end MobxFailable
